import Mathlib

/-!
# Verification of the custom-shell pipeline engine (`src/shell.c`)

A shallow embedding of the tokenizer, stage parser, redirection resolver,
pipeline executor and history store of `shell.c`, together with theorems
settling the specification claims about them.

Conventions: file descriptors are natural numbers; the simulated `pipe`
allocates fresh descriptor numbers starting at 3 (0/1/2 are the inherited
standard streams); file systems are association lists from path to file.
-/

set_option autoImplicit false

namespace CustomShell

/-! ## Tokenizer (`strtok`-based splitting, shell.c:79-90 and 96-130) -/

/-- Split a character list at every occurrence of `delim`, keeping empty
pieces (they are filtered out afterwards, as `strtok` never returns empty
tokens). -/
def splitCharsAux (delim : Char) : List Char → List Char → List (List Char)
  | [], cur => [cur.reverse]
  | c :: cs, cur =>
    if c = delim then cur.reverse :: splitCharsAux delim cs []
    else splitCharsAux delim cs (c :: cur)

def splitChars (delim : Char) (cs : List Char) : List (List Char) :=
  splitCharsAux delim cs []

/-- `strtok(command, " ")` (shell.c:96, 130): split a stage string on the
space character, dropping empty pieces.  Note that only `' '` is a
delimiter; tabs stay inside tokens, exactly as in the C code. -/
def tokenize (s : String) : List String :=
  ((splitChars ' ' s.toList).map (fun cs => String.mk cs)).filter (fun t => t ≠ "")

/-- `parse_input` (shell.c:79-90): `strtok(input, "|")` splits the line on
`'|'`, skipping empty segments, producing the stage strings. -/
def splitPipeline (s : String) : List String :=
  ((splitChars '|' s.toList).map (fun cs => String.mk cs)).filter (fun t => t ≠ "")

/-! ## Stage parser (`parse_command`, shell.c:93-133) -/

/-- The two syntax errors `parse_command` can report (shell.c:111, 121). -/
inductive ParseErrorKind
  | missingInputFile
  | missingOutputFile
deriving DecidableEq

/-- Result of `parse_command`: the argument vector, the background flag,
the optional redirection paths, the reported errors, and whether the loop
ran to completion (on a dangling `<`/`>` the C function returns early and
never NUL-terminates `args`; `completed` records that). -/
structure ParsedCommand where
  args : List String
  is_background : Bool
  input_file : Option String
  output_file : Option String
  errors : List ParseErrorKind
  completed : Bool
deriving DecidableEq

/-- The token loop of `parse_command` (shell.c:100-131), one constructor
per branch of the `if`/`else if` chain. -/
def parseCommandAux : List String → ParsedCommand → ParsedCommand
  | [], acc => { acc with completed := true }
  | t :: rest, acc =>
    if t = "&" then
      parseCommandAux rest { acc with is_background := true }
    else if t = "<" then
      match rest with
      | [] => { acc with errors := acc.errors ++ [ParseErrorKind.missingInputFile],
                         completed := false }
      | f :: rest2 => parseCommandAux rest2 { acc with input_file := some f }
    else if t = ">" then
      match rest with
      | [] => { acc with errors := acc.errors ++ [ParseErrorKind.missingOutputFile],
                         completed := false }
      | f :: rest2 => parseCommandAux rest2 { acc with output_file := some f }
    else
      parseCommandAux rest { acc with args := acc.args ++ [t] }

/-- `parse_command` on an already tokenized stage (shell.c:93-133), with
the initialization of shell.c:95-98. -/
def parseCommand (ts : List String) : ParsedCommand :=
  parseCommandAux ts ⟨[], false, none, none, [], false⟩

/-! ## Redirection resolver (the `open` calls of `execute_command`,
shell.c:147-168) -/

/-- A file in the modelled file system: its permission bits and content. -/
structure File where
  mode : Nat
  content : List Nat
deriving DecidableEq

/-- File systems are association lists from path to file. -/
abbrev FileSys := List (String × File)

def lookupFile (fs : FileSys) (p : String) : Option File :=
  (fs.find? (fun e => e.1 = p)).map (fun e => e.2)

def setFile (fs : FileSys) (p : String) (f : File) : FileSys :=
  match fs with
  | [] => [(p, f)]
  | e :: rest => if e.1 = p then (p, f) :: rest else e :: setFile rest p f

/-- A file is readable when its owner-read permission bit (0o400) is set. -/
def FileReadable (f : File) : Bool := Nat.testBit f.mode 8

inductive AccessMode
  | rdonly
  | wronly
deriving DecidableEq

/-- One `open(2)` call: path, access mode, the O_CREAT and O_TRUNC flags,
and the permission argument. -/
structure OpenCall where
  path : String
  access : AccessMode
  creat : Bool
  trunc : Bool
  mode : Nat
deriving DecidableEq

/-- `open(input_file, O_RDONLY)` (shell.c:149). -/
def inputOpenCall (p : String) : OpenCall := ⟨p, AccessMode.rdonly, false, false, 0⟩

/-- `open(output_file, O_WRONLY | O_CREAT | O_TRUNC, 0644)` (shell.c:160). -/
def outputOpenCall (p : String) : OpenCall := ⟨p, AccessMode.wronly, true, true, 0o644⟩

/-- Modelled from the spec: POSIX `open` behaviour for the two flag
combinations the shell uses (the OS is an external collaborator).  Opening
an absent file fails unless O_CREAT is given, in which case the file is
created with the requested permission bits and empty content; opening an
existing file read-only requires the read permission bit; O_TRUNC empties
an existing file.  Returns the updated file system on success, `none` on
failure. -/
def osOpen (fs : FileSys) (c : OpenCall) : Option FileSys :=
  match lookupFile fs c.path with
  | some f =>
    if c.access = AccessMode.rdonly && !(FileReadable f) then none
    else if c.trunc then some (setFile fs c.path ⟨f.mode, []⟩)
    else some fs
  | none => if c.creat then some (setFile fs c.path ⟨c.mode, []⟩) else none

/-! ## `execute_command` (shell.c:136-183) -/

/-- What a stage's standard stream ends up bound to. -/
inductive StreamBinding
  | inherited
  | pipeFd (fd : Nat)
  | file (path : String)
deriving DecidableEq

def EXIT_FAILURE : Nat := 1

/-- How the child of `execute_command` terminates. -/
inductive ChildResult
  | exited (status : Nat)
  | execed (prog : String) (argv : List String)
  | undefinedBehavior
deriving DecidableEq

/-- Trace of the child branch of `execute_command`: the final bindings of
its standard streams, its fate, and the file system afterwards. -/
structure SingleChildTrace where
  stdinB : StreamBinding
  stdoutB : StreamBinding
  result : ChildResult
  fsAfter : FileSys
deriving DecidableEq

/-- The `execvp` call of the child (shell.c:169-174): replace the process
by `args[0]`, or print an error and `exit(EXIT_FAILURE)` when it cannot be
started.  `execOk` models which program names the OS can exec.  An empty
`args` makes the C call `execvp(NULL, args)`: undefined behaviour. -/
def executeCommandChildExec (fs : FileSys) (execOk : String → Bool)
    (args : List String) (sbIn sbOut : StreamBinding) : SingleChildTrace :=
  match args.head? with
  | none => ⟨sbIn, sbOut, ChildResult.undefinedBehavior, fs⟩
  | some prog =>
    if execOk prog then ⟨sbIn, sbOut, ChildResult.execed prog args, fs⟩
    else ⟨sbIn, sbOut, ChildResult.exited EXIT_FAILURE, fs⟩

/-- The output-redirection step of the child (shell.c:158-168): open the
output file (create/truncate, mode 0644) and `dup2` it onto stdout, or
`exit(EXIT_FAILURE)` if the open fails. -/
def executeCommandChildOutput (fs : FileSys) (execOk : String → Bool)
    (args : List String) (sbIn : StreamBinding) (outFile : Option String) :
    SingleChildTrace :=
  match outFile with
  | none => executeCommandChildExec fs execOk args sbIn StreamBinding.inherited
  | some p =>
    match osOpen fs (outputOpenCall p) with
    | none => ⟨sbIn, StreamBinding.inherited, ChildResult.exited EXIT_FAILURE, fs⟩
    | some fs2 => executeCommandChildExec fs2 execOk args sbIn (StreamBinding.file p)

/-- The child branch of `execute_command` (shell.c:145-175): input
redirection (shell.c:147-157), then output redirection, then `execvp`. -/
def executeCommandChild (fs : FileSys) (execOk : String → Bool)
    (args : List String) (inFile outFile : Option String) : SingleChildTrace :=
  match inFile with
  | none => executeCommandChildOutput fs execOk args StreamBinding.inherited outFile
  | some p =>
    match osOpen fs (inputOpenCall p) with
    | none => ⟨StreamBinding.inherited, StreamBinding.inherited,
               ChildResult.exited EXIT_FAILURE, fs⟩
    | some fs2 => executeCommandChildOutput fs2 execOk args (StreamBinding.file p) outFile

/-- What the parent branch of `execute_command` does (shell.c:176-182):
whether it blocked on the child, and which process ids it waited on. -/
structure ParentOutcome where
  blocked : Bool
  reaped : List Nat
deriving DecidableEq

/-- Parent branch of `execute_command`: `waitpid(pid, NULL, 0)` only when
the stage is not backgrounded; a background child is never waited on here. -/
def executeCommandParent (is_background : Bool) (childPid : Nat) : ParentOutcome :=
  if is_background then ⟨false, []⟩ else ⟨true, [childPid]⟩

/-! ## Pipeline executor (`execute_piped_commands`, shell.c:186-246)

The simulated `pipe()` hands out fresh descriptor numbers 3, 4, 5, ...;
what matters for the claims is the identity of each pipe end, the bindings
of the standard streams, and which pipe descriptors remain open. -/

/-- Trace of one child of `execute_piped_commands` at the moment it calls
`execvp` (shell.c:210-230): its index, the stage `parse_command` produced
for it (shell.c:196 — note the parsed redirection paths are never used by
the executor), the bindings of its standard streams, and the pipe
descriptors it still holds open. -/
structure ChildTrace where
  idx : Nat
  stage : ParsedCommand
  stdinB : StreamBinding
  stdoutB : StreamBinding
  openPipeAtExec : List Nat
deriving DecidableEq

/-- Parent-side simulation state across the loop of shell.c:191-238. -/
structure PipedState where
  nextFd : Nat
  prevFd : Nat
  parentOpen : List Nat
  children : List ChildTrace
  pipes : Nat
deriving DecidableEq

/-- One iteration of the loop (shell.c:191-238) for stage `i` of `n`:
`parse_command`, `pipe`, `fork`; the child wires stdin to the previous
read end when `i > 0` and stdout to the new write end when `i < n - 1`,
closes those two after `dup2`, and always closes the new read end
(shell.c:212-223); the parent closes the new write end and the previous
read end (shell.c:232-237). -/
def pipedStep (n i : Nat) (cmd : String) (st : PipedState) : PipedState :=
  let stage := parseCommand (tokenize cmd)
  let rFd := st.nextFd
  let wFd := st.nextFd + 1
  let inh := st.parentOpen ++ [rFd, wFd]
  let stdinB := if 0 < i then StreamBinding.pipeFd st.prevFd else StreamBinding.inherited
  let c1 := if 0 < i then inh.erase st.prevFd else inh
  let stdoutB := if i < n - 1 then StreamBinding.pipeFd wFd else StreamBinding.inherited
  let c2 := if i < n - 1 then c1.erase wFd else c1
  let c3 := c2.erase rFd
  let child : ChildTrace := ⟨i, stage, stdinB, stdoutB, c3⟩
  let p1 := (st.parentOpen ++ [rFd, wFd]).erase wFd
  let p2 := if 0 < i then p1.erase st.prevFd else p1
  ⟨st.nextFd + 2, rFd, p2, st.children ++ [child], st.pipes + 1⟩

/-- The loop of shell.c:191-238 over the remaining stage strings. -/
def pipedRun (n : Nat) : Nat → List String → PipedState → PipedState
  | _, [], st => st
  | i, c :: rest, st => pipedRun n (i + 1) rest (pipedStep n i c st)

/-- Overall trace of `execute_piped_commands`: number of `pipe()` calls,
the per-child traces, the pipe descriptors the parent still holds after
the final `close(prev_fd)` (shell.c:240), and the number of `wait(NULL)`
calls (shell.c:242-245, unconditional — the background flag parsed at
shell.c:196 is ignored). -/
structure PipelineTrace where
  pipes : Nat
  children : List ChildTrace
  parentOpenAfter : List Nat
  waits : Nat
deriving DecidableEq

/-- `execute_piped_commands` (shell.c:186-246). -/
def executePipedCommands (cmds : List String) : PipelineTrace :=
  let st := pipedRun cmds.length 0 cmds ⟨3, 0, [], [], 0⟩
  ⟨st.pipes, st.children, st.parentOpen.erase st.prevFd, cmds.length⟩

/-! ## History store (`add_to_history` / `print_history`, shell.c:47-76)

The fixed array `history[MAX_HISTORY]` together with `history_count` is
abstracted as the list of its first `history_count` entries. -/

def MAX_HISTORY : Nat := 100

/-- `add_to_history` (shell.c:51-67): append while fewer than `MAX_HISTORY`
entries exist; once full, shift every entry up one slot and store the new
line in the last slot. -/
def addToHistory (h : List String) (line : String) : List String :=
  if h.length < MAX_HISTORY then h ++ [line] else h.tail ++ [line]

/-- `print_history` (shell.c:70-76): the printed `(index, line)` pairs,
1-indexed, in storage order. -/
def printHistory (h : List String) : List (Nat × String) :=
  h.enum.map (fun p => (p.1 + 1, p.2))

/-! ## The main loop body (`main` + `handle_builtin`, shell.c:249-340) -/

def builtinNames : List String := ["exit", "cd", "history"]

/-- `args[0][0] == c` on a C string: the first character check used by
`handle_builtin` for the `!N` feature (shell.c:273); an empty string has
the NUL terminator there, which matches no metacharacter. -/
def headCharIs (c : Char) (s : String) : Bool :=
  match s.toList with
  | [] => false
  | d :: _ => d = c

/-- Result of processing one input line in `main` (shell.c:306-339). -/
structure LineResult where
  historyAfter : List String
  parseErrors : List ParseErrorKind
  forks : Option Nat
  nullArgvRead : Bool
deriving DecidableEq

/-- One iteration of the `main` loop on a line with its trailing newline
already stripped (shell.c:315-338): skip only when `strlen(input) == 0`,
otherwise record the line in history, split on `'|'`, and either run the
pipeline executor (`command_count > 1`) or parse the single stage, try
`handle_builtin` (shell.c:249-299) and fall through to `execute_command`.
`forks` counts the `fork()` calls; it is `none` on the paths not modelled
here (the `!N` history-replay recursion, and the undefined-behaviour paths
where `commands[0]` is NULL or `args[0]` is NULL).  `nullArgvRead` records
that `handle_builtin` read `args[0]` from an empty argument vector — a
NULL-pointer dereference in the C code. -/
def processLine (hist : List String) (line : String) : LineResult :=
  if line = "" then ⟨hist, [], some 0, false⟩
  else
    let hist2 := addToHistory hist line
    let cmds := splitPipeline line
    if 1 < cmds.length then
      ⟨hist2, (cmds.map (fun c => (parseCommand (tokenize c)).errors)).flatten,
       some cmds.length, false⟩
    else
      match cmds with
      | [] => ⟨hist2, [], none, false⟩
      | c :: _ =>
        let p := parseCommand (tokenize c)
        match p.args with
        | [] => ⟨hist2, p.errors, none, true⟩
        | a :: _ =>
          if a ∈ builtinNames then ⟨hist2, p.errors, some 0, false⟩
          else if headCharIs '!' a then ⟨hist2, p.errors, none, false⟩
          else ⟨hist2, p.errors, some 1, false⟩

/-! ## Auxiliary notions used by the claim statements -/

/-- Modelled from the spec: the set of exit statuses an executed program
can itself report via `exit` (POSIX `waitpid`: the low 8 bits, 0-255). -/
def possibleProgramExitStatus (n : Nat) : Prop := n ≤ 255

/-- A well-formed stage token list: every `<` or `>` is immediately
followed by a filename token, and that filename is not itself one of the
metacharacters `<`, `>`, `&`. -/
def wfStage : List String → Bool
  | [] => true
  | t :: rest =>
    if t = "<" ∨ t = ">" then
      match rest with
      | [] => false
      | f :: rest2 => if f = "<" ∨ f = ">" ∨ f = "&" then false else wfStage rest2
    else wfStage rest

/-- The token immediately following the last occurrence of `m` in the
list (`none` if `m` does not occur, or occurs last with nothing after
it).  This follows the spec's words "the filename following the last
occurrence of that metacharacter", for comparison with `parseCommand`. -/
def lastRedirTarget (m : String) : List String → Option String
  | [] => none
  | t :: rest =>
    match lastRedirTarget m rest with
    | some f => some f
    | none => if t = m then rest.head? else none

/-- The parent-side state of `execute_piped_commands` at the start of
iteration `i`: descriptors 3..2i+2 have been handed out, the parent still
holds only the read end `2i+1` of the previous pipe (nothing before the
first iteration), and `prev_fd` is that read end (`0`, the initial value,
before the first iteration). -/
def stateAt (i : Nat) (children : List ChildTrace) : PipedState :=
  ⟨3 + 2 * i, if i = 0 then 0 else 2 * i + 1, if i = 0 then [] else [2 * i + 1],
   children, i⟩

/-- The trace of child `i` of an `n`-stage pipeline: stdin is the previous
pipe's read end `2i+1` except for the first stage, stdout is the new
pipe's write end `2i+4` except for the last stage, and every child closes
all its pipe descriptors before `execvp` except the last one, which never
closes the write end `2i+4` of its (unused) pipe. -/
def expectedChild (n i : Nat) (cmd : String) : ChildTrace :=
  ⟨i, parseCommand (tokenize cmd),
   if 0 < i then StreamBinding.pipeFd (2 * i + 1) else StreamBinding.inherited,
   if i < n - 1 then StreamBinding.pipeFd (2 * i + 4) else StreamBinding.inherited,
   if i < n - 1 then [] else [2 * i + 4]⟩

/-- Pair each element with its index, starting at `i`. -/
def idxFrom (i : Nat) : List String → List (Nat × String)
  | [] => []
  | c :: rest => (i, c) :: idxFrom (i + 1) rest

/-- A sample file system used to instantiate the redirection contract:
a readable file, an unreadable file (no permission bits) and a writable
file with some content. -/
def sampleFs : FileSys :=
  [("in.txt", ⟨0o644, [7]⟩), ("locked", ⟨0, []⟩), ("out.txt", ⟨0o600, [1, 2]⟩)]

/-! ## Claim theorems -/

/-- C1: refuting evidence.  On `cat < infile | wc > outfile` the executor
parses `infile` as the first stage's input path and `outfile` as the last
stage's output path, yet binds the first stage's stdin to the inherited
standard input (not the file) and the last stage's stdout to the
inherited standard output (not the file); only the inter-stage pipe is
wired (stage 0 stdout to the write end 4, stage 1 stdin to the read end
3).  `execute_piped_commands` never opens or binds the parsed redirection
paths. -/
theorem piped_redirections_ignored :
    (executePipedCommands (splitPipeline "cat < infile | wc > outfile")).children.map
      (fun c => (c.stage.input_file, c.stdinB, c.stage.output_file, c.stdoutB)) =
    [(some "infile", StreamBinding.inherited, none, StreamBinding.pipeFd 4),
     (none, StreamBinding.pipeFd 3, some "outfile", StreamBinding.inherited)] := by
  decide

/-- C3: refuting evidence.  `sleep 5 &` parses as a background command,
and the parent branch of `execute_command` then neither blocks nor waits
on any process: the spawned child is never reaped by the shell (no other
reaping mechanism exists).  Moreover a pipeline ending in `&` still
blocks: `execute_piped_commands` waits once per stage unconditionally. -/
theorem background_child_never_reaped :
    (parseCommand (tokenize "sleep 5 &")).is_background = true ∧
    executeCommandParent (parseCommand (tokenize "sleep 5 &")).is_background 7 =
      ⟨false, []⟩ ∧
    (executePipedCommands (splitPipeline "cat | wc &")).waits = 2 := by
  decide

/-- C4: refuting evidence.  On the line `cmd <` the parser reports the
missing-input-file syntax error, but `parse_command` returns `void`, so
`main` cannot see the error and proceeds: the line is recorded in history
and `execute_command` still calls `fork()` (one process is spawned). -/
theorem dangling_redirect_still_spawns :
    processLine [] "cmd <" =
      ⟨["cmd <"], [ParseErrorKind.missingInputFile], some 1, false⟩ := by
  decide

/-- C7: refuting evidence.  `main` skips a line only when `strlen` is 0:
a line consisting of a single space is recorded in history and parsed,
yielding an empty argument vector, after which `handle_builtin` reads
`args[0]` — a NULL pointer.  Only the genuinely empty line is treated as
a no-op. -/
theorem whitespace_line_not_skipped :
    processLine [] " " = ⟨[" "], [], none, true⟩ ∧
    processLine [] "" = ⟨[], [], some 0, false⟩ := by
  decide

/-- C2: counterexample.  For the two-stage pipeline `cat | wc` the
executor allocates 2 pipes, not N - 1 = 1, and the last child still holds
descriptor 6 (the write end of the second, unused pipe) open when it
calls `execvp`. -/
theorem piped_two_stages_allocates_two_pipes :
    (executePipedCommands (splitPipeline "cat | wc")).pipes = 2 ∧
    (executePipedCommands (splitPipeline "cat | wc")).pipes ≠
      (splitPipeline "cat | wc").length - 1 ∧
    (executePipedCommands (splitPipeline "cat | wc")).children.map
      (fun c => c.openPipeAtExec) = [[], [6]] := by
  decide

/-- C5: counterexample.  A child whose `execvp` fails exits with status
`EXIT_FAILURE`, i.e. 1 — a status that a successfully launched program
can itself report, so launch failure is not distinguishable by exit
status. -/
theorem exec_failure_status_collides :
    (executeCommandChild [] (fun _ => false) ["badcmd"] none none).result =
      ChildResult.exited 1 ∧
    possibleProgramExitStatus 1 ∧ (1 : Nat) ≠ 0 := by
  refine ⟨by decide, ?_, by decide⟩
  norm_num [possibleProgramExitStatus]

/-- C6: counterexample.  In `sleep & 5` the `&` is not at the true end of
the line, yet `parse_command` silently sets the background flag, reports
no error, and `execute_command` honors the flag (the parent does not
block). -/
theorem ampersand_mid_command_silently_honored :
    (parseCommand ["sleep", "&", "5"]).is_background = true ∧
    (parseCommand ["sleep", "&", "5"]).errors = [] ∧
    (parseCommand ["sleep", "&", "5"]).args = ["sleep", "5"] ∧
    (executeCommandParent (parseCommand ["sleep", "&", "5"]).is_background 7).blocked =
      false := by
  decide

/-- Unfolding: `&` is transparent to stage well-formedness. -/
theorem wfStage_amp (rest : List String) : wfStage ("&" :: rest) = wfStage rest := by
  rw [wfStage.eq_def]
  simp

/-- Unfolding: an ordinary word is transparent to stage well-formedness. -/
theorem wfStage_word (t : String) (rest : List String) (h1 : t ≠ "<") (h2 : t ≠ ">") :
    wfStage (t :: rest) = wfStage rest := by
  rw [wfStage.eq_def]
  simp [h1, h2]

/-- Unfolding: a trailing redirection metacharacter is ill-formed. -/
theorem wfStage_redir_nil (t : String) (h : t = "<" ∨ t = ">") : wfStage [t] = false := by
  rw [wfStage.eq_def]
  simp [h]

/-- Unfolding: a redirection consumes its filename token. -/
theorem wfStage_redir_cons (t f : String) (rest2 : List String) (h : t = "<" ∨ t = ">") :
    wfStage (t :: f :: rest2) =
      if f = "<" ∨ f = ">" ∨ f = "&" then false else wfStage rest2 := by
  rw [wfStage.eq_def]
  simp [h]

/-- Characterization of the `parse_command` token loop on well-formed
stages, for any accumulator: the redirection paths follow last-write-wins
from `lastRedirTarget`, no error is reported, and the background flag is
set exactly when `&` occurs among the tokens. -/
theorem parseCommandAux_wf_char :
    ∀ (n : Nat) (ts : List String), ts.length ≤ n → wfStage ts = true →
    ∀ acc : ParsedCommand,
      (parseCommandAux ts acc).input_file =
        (match lastRedirTarget "<" ts with
          | some f => some f
          | none => acc.input_file) ∧
      (parseCommandAux ts acc).output_file =
        (match lastRedirTarget ">" ts with
          | some f => some f
          | none => acc.output_file) ∧
      (parseCommandAux ts acc).errors = acc.errors ∧
      (parseCommandAux ts acc).is_background = (acc.is_background || ts.contains "&") := by
  intro n
  induction n with
  | zero =>
    intro ts hlen hwf acc
    have hts : ts = [] := List.eq_nil_of_length_eq_zero (Nat.le_zero.mp hlen)
    subst hts
    simp [parseCommandAux, lastRedirTarget]
  | succ n ih =>
    intro ts hlen hwf acc
    cases ts with
    | nil => simp [parseCommandAux, lastRedirTarget]
    | cons t rest =>
      have hlen2 : rest.length ≤ n := by
        simp only [List.length_cons] at hlen
        omega
      by_cases hamp : t = "&"
      · subst hamp
        have hwf2 : wfStage rest = true := by
          rw [wfStage_amp] at hwf
          exact hwf
        obtain ⟨hi, ho, he, hb⟩ := ih rest hlen2 hwf2 { acc with is_background := true }
        have hstep : parseCommandAux ("&" :: rest) acc =
            parseCommandAux rest { acc with is_background := true } := by
          rw [parseCommandAux.eq_def]
          simp
        refine ⟨?_, ?_, ?_, ?_⟩
        · rw [hstep, hi]
          cases h2 : lastRedirTarget "<" rest <;> simp [lastRedirTarget, h2]
        · rw [hstep, ho]
          cases h2 : lastRedirTarget ">" rest <;> simp [lastRedirTarget, h2]
        · rw [hstep, he]
        · rw [hstep, hb]
          simp [List.contains_cons]
      · by_cases hlt : t = "<"
        · subst hlt
          cases rest with
          | nil => rw [wfStage_redir_nil "<" (Or.inl rfl)] at hwf; exact absurd hwf (by simp)
          | cons f rest2 =>
            rw [wfStage_redir_cons "<" f rest2 (Or.inl rfl)] at hwf
            have hf : ¬(f = "<" ∨ f = ">" ∨ f = "&") := by
              intro hc
              rw [if_pos hc] at hwf
              exact absurd hwf (by simp)
            have hwf2 : wfStage rest2 = true := by
              rwa [if_neg hf] at hwf
            have hlen3 : rest2.length ≤ n := by
              simp only [List.length_cons] at hlen
              omega
            obtain ⟨hi, ho, he, hb⟩ := ih rest2 hlen3 hwf2 { acc with input_file := some f }
            push_neg at hf
            obtain ⟨hf1, hf2, hf3⟩ := hf
            have hstep : parseCommandAux ("<" :: f :: rest2) acc =
                parseCommandAux rest2 { acc with input_file := some f } := by
              simp [parseCommandAux]
            have hf3s : ("&" : String) ≠ f := fun h => hf3 h.symm
            refine ⟨?_, ?_, ?_, ?_⟩
            · rw [hstep, hi]
              cases h2 : lastRedirTarget "<" rest2 <;> simp [lastRedirTarget, h2, hf1]
            · rw [hstep, ho]
              cases h2 : lastRedirTarget ">" rest2 <;> simp [lastRedirTarget, h2, hf2]
            · rw [hstep, he]
            · rw [hstep, hb]
              simp [List.contains_cons, hf3s]
        · by_cases hgt : t = ">"
          · subst hgt
            cases rest with
            | nil => rw [wfStage_redir_nil ">" (Or.inr rfl)] at hwf; exact absurd hwf (by simp)
            | cons f rest2 =>
              rw [wfStage_redir_cons ">" f rest2 (Or.inr rfl)] at hwf
              have hf : ¬(f = "<" ∨ f = ">" ∨ f = "&") := by
                intro hc
                rw [if_pos hc] at hwf
                exact absurd hwf (by simp)
              have hwf2 : wfStage rest2 = true := by
                rwa [if_neg hf] at hwf
              have hlen3 : rest2.length ≤ n := by
                simp only [List.length_cons] at hlen
                omega
              obtain ⟨hi, ho, he, hb⟩ := ih rest2 hlen3 hwf2 { acc with output_file := some f }
              push_neg at hf
              obtain ⟨hf1, hf2, hf3⟩ := hf
              have hstep : parseCommandAux (">" :: f :: rest2) acc =
                  parseCommandAux rest2 { acc with output_file := some f } := by
                simp [parseCommandAux]
              have hf3s : ("&" : String) ≠ f := fun h => hf3 h.symm
              refine ⟨?_, ?_, ?_, ?_⟩
              · rw [hstep, hi]
                cases h2 : lastRedirTarget "<" rest2 <;> simp [lastRedirTarget, h2, hf1]
              · rw [hstep, ho]
                cases h2 : lastRedirTarget ">" rest2 <;> simp [lastRedirTarget, h2, hf2]
              · rw [hstep, he]
              · rw [hstep, hb]
                simp [List.contains_cons, hf3s]
          · have hwf2 : wfStage rest = true := by
              rw [wfStage_word t rest hlt hgt] at hwf
              exact hwf
            obtain ⟨hi, ho, he, hb⟩ := ih rest hlen2 hwf2 { acc with args := acc.args ++ [t] }
            have hstep : parseCommandAux (t :: rest) acc =
                parseCommandAux rest { acc with args := acc.args ++ [t] } := by
              rw [parseCommandAux.eq_def]
              simp [hamp, hlt, hgt]
            have hamps : ("&" : String) ≠ t := fun h => hamp h.symm
            refine ⟨?_, ?_, ?_, ?_⟩
            · rw [hstep, hi]
              cases h2 : lastRedirTarget "<" rest <;> simp [lastRedirTarget, h2, hlt]
            · rw [hstep, ho]
              cases h2 : lastRedirTarget ">" rest <;> simp [lastRedirTarget, h2, hgt]
            · rw [hstep, he]
            · rw [hstep, hb]
              simp [List.contains_cons, hamps]

/-- C8: on a well-formed stage in which `<` (respectively `>`) appears
more than once, the parsed stage's input path (respectively output path)
is the token following the last occurrence of that metacharacter — the
last occurrence wins, with no accumulation. -/
theorem last_redirection_wins (ts : List String) (hwf : wfStage ts = true) :
    (2 ≤ ts.count "<" → (parseCommand ts).input_file = lastRedirTarget "<" ts) ∧
    (2 ≤ ts.count ">" → (parseCommand ts).output_file = lastRedirTarget ">" ts) := by
  obtain ⟨hi, ho, -, -⟩ :=
    parseCommandAux_wf_char ts.length ts le_rfl hwf ⟨[], false, none, none, [], false⟩
  constructor
  · intro _
    rw [parseCommand, hi]
    cases h2 : lastRedirTarget "<" ts <;> simp [h2]
  · intro _
    rw [parseCommand, ho]
    cases h2 : lastRedirTarget ">" ts <;> simp [h2]

/-- Witness for C8 at `cmd < a < b > x > y`: the parsed input path is the
token after the last `<` (that is, `b`) and the output path the token
after the last `>` (that is, `y`). -/
theorem last_redirection_wins_witness :
    ((parseCommand ["cmd", "<", "a", "<", "b", ">", "x", ">", "y"]).input_file =
      lastRedirTarget "<" ["cmd", "<", "a", "<", "b", ">", "x", ">", "y"]) ∧
    ((parseCommand ["cmd", "<", "a", "<", "b", ">", "x", ">", "y"]).output_file =
      lastRedirTarget ">" ["cmd", "<", "a", "<", "b", ">", "x", ">", "y"]) ∧
    lastRedirTarget "<" ["cmd", "<", "a", "<", "b", ">", "x", ">", "y"] = some "b" ∧
    lastRedirTarget ">" ["cmd", "<", "a", "<", "b", ">", "x", ">", "y"] = some "y" :=
  ⟨(last_redirection_wins _ (by decide)).1 (by decide),
   (last_redirection_wins _ (by decide)).2 (by decide),
   by decide, by decide⟩

/-- C6 amended: an `&` anywhere in a well-formed stage silently sets the
background flag — `parse_command` reports no error for it, and the flag
is set exactly when `&` occurs among the stage's tokens, wherever it is.
A single-stage command then honors the flag regardless of the position of
the `&` (the parent blocks iff the flag is unset), while
`execute_piped_commands` ignores the flag entirely and waits once per
stage.  An `&` that is not at the true end of the line is thus silently
honored (single stage) or silently ignored (pipeline), never reported. -/
theorem ampersand_never_reported (ts : List String) (hwf : wfStage ts = true) :
    (parseCommand ts).errors = [] ∧
    (parseCommand ts).is_background = ts.contains "&" ∧
    (∀ cmds : List String, (executePipedCommands cmds).waits = cmds.length) ∧
    (∀ pid : Nat, (executeCommandParent (parseCommand ts).is_background pid).blocked =
      !(parseCommand ts).is_background) := by
  obtain ⟨-, -, he, hb⟩ :=
    parseCommandAux_wf_char ts.length ts le_rfl hwf ⟨[], false, none, none, [], false⟩
  refine ⟨?_, ?_, ?_, ?_⟩
  · rw [parseCommand, he]
  · rw [parseCommand, hb]
    simp
  · intro cmds
    rfl
  · intro pid
    cases hbg : (parseCommand ts).is_background <;> simp [executeCommandParent, hbg]

/-- Witness for C6 (amended) at `sleep & 5` (background marker not at the
end): no error, flag set, pipeline waits per stage, parent does not
block. -/
theorem ampersand_never_reported_witness :
    (parseCommand ["sleep", "&", "5"]).errors = [] ∧
    (parseCommand ["sleep", "&", "5"]).is_background = ["sleep", "&", "5"].contains "&" ∧
    (executePipedCommands ["cat ", " wc &"]).waits = ["cat ", " wc &"].length ∧
    (executeCommandParent (parseCommand ["sleep", "&", "5"]).is_background 7).blocked =
      !(parseCommand ["sleep", "&", "5"]).is_background := by
  obtain ⟨h1, h2, h3, h4⟩ := ampersand_never_reported ["sleep", "&", "5"] (by decide)
  exact ⟨h1, h2, h3 ["cat ", " wc &"], h4 7⟩

/-- One loop iteration moves the executor from the parent-side state at
index `i` to the state at `i + 1`, spawning exactly the expected child. -/
theorem pipedStep_eq (n i : Nat) (cmd : String) (ch : List ChildTrace) :
    pipedStep n i cmd (stateAt i ch) = stateAt (i + 1) (ch ++ [expectedChild n i cmd]) := by
  rcases Nat.eq_zero_or_pos i with hi | hi
  · subst hi
    by_cases hn : 0 < n - 1
    · simp [pipedStep, stateAt, expectedChild, hn, List.erase_cons, beq_iff_eq]
    · simp [pipedStep, stateAt, expectedChild, hn, List.erase_cons, beq_iff_eq]
  · have hi0 : i ≠ 0 := by omega
    have e1 : ¬(2 * i + 1 = 3 + 2 * i) := by omega
    have e2 : ¬(2 * i + 1 = 3 + 2 * i + 1) := by omega
    have e3 : ¬(3 + 2 * i = 3 + 2 * i + 1) := by omega
    by_cases hn : i < n - 1
    · simp [pipedStep, stateAt, expectedChild, hn, hi, hi0, List.erase_cons, beq_iff_eq,
        e1, e2, e3]
      omega
    · simp [pipedStep, stateAt, expectedChild, hn, hi, hi0, List.erase_cons, beq_iff_eq,
        e1, e2, e3]
      omega

/-- Running the loop from the state at index `i` over the remaining stage
strings yields the state at the final index with the expected children
appended in order. -/
theorem pipedRun_eq (n : Nat) (rest : List String) : ∀ (i : Nat) (ch : List ChildTrace),
    pipedRun n i rest (stateAt i ch) =
      stateAt (i + rest.length)
        (ch ++ (idxFrom i rest).map (fun p => expectedChild n p.1 p.2)) := by
  induction rest with
  | nil =>
    intro i ch
    simp [pipedRun, idxFrom]
  | cons c rest ih =>
    intro i ch
    have hstep : pipedRun n i (c :: rest) (stateAt i ch) =
        pipedRun n (i + 1) rest (pipedStep n i c (stateAt i ch)) := rfl
    rw [hstep, pipedStep_eq, ih (i + 1) (ch ++ [expectedChild n i c])]
    have harith : i + 1 + rest.length = i + (c :: rest).length := by
      simp
      omega
    rw [harith]
    simp [idxFrom, List.append_assoc]


/-- C2 amended: for every nonempty pipeline of N stages,
`execute_piped_commands` allocates exactly N pipes (one per stage,
including a superfluous one for the last stage), not N - 1; the parent
has closed every pipe descriptor by the time the pipeline completes, and
every child except the last closes all pipe descriptors before `execvp`,
but the last stage's child still holds the write end of the final
(unused) pipe open when it execs; the parent then waits once per stage. -/
theorem piped_pipe_accounting (cmds : List String) (h : cmds ≠ []) :
    (executePipedCommands cmds).pipes = cmds.length ∧
    (executePipedCommands cmds).parentOpenAfter = [] ∧
    (∀ c ∈ (executePipedCommands cmds).children,
      c.openPipeAtExec = if c.idx < cmds.length - 1 then [] else [2 * c.idx + 4]) ∧
    (executePipedCommands cmds).waits = cmds.length := by
  have hinit : (⟨3, 0, [], [], 0⟩ : PipedState) = stateAt 0 [] := by
    simp [stateAt]
  have hrun : pipedRun cmds.length 0 cmds (⟨3, 0, [], [], 0⟩ : PipedState) =
      stateAt cmds.length
        ((idxFrom 0 cmds).map (fun p => expectedChild cmds.length p.1 p.2)) := by
    rw [hinit, pipedRun_eq]
    simp
  have hne : cmds.length ≠ 0 := fun hc => h (List.eq_nil_of_length_eq_zero hc)
  refine ⟨?_, ?_, ?_, ?_⟩
  · show (pipedRun cmds.length 0 cmds ⟨3, 0, [], [], 0⟩).pipes = cmds.length
    rw [hrun]
    rfl
  · show ((pipedRun cmds.length 0 cmds ⟨3, 0, [], [], 0⟩).parentOpen.erase
      (pipedRun cmds.length 0 cmds ⟨3, 0, [], [], 0⟩).prevFd) = []
    rw [hrun]
    simp [stateAt, hne]
  · intro c hc
    have hc2 : c ∈ (idxFrom 0 cmds).map (fun p => expectedChild cmds.length p.1 p.2) := by
      have : (executePipedCommands cmds).children =
          (pipedRun cmds.length 0 cmds ⟨3, 0, [], [], 0⟩).children := rfl
      rw [this, hrun] at hc
      exact hc
    obtain ⟨p, hp, hpc⟩ := List.mem_map.mp hc2
    subst hpc
    simp only [expectedChild]
  · rfl

/-- Witness for C2 (amended) at the two-stage pipeline `["cat ", " wc"]`:
2 pipes, parent clean, first child clean, last child holding descriptor
6, two waits. -/
theorem piped_pipe_accounting_witness :
    (executePipedCommands ["cat ", " wc"]).pipes = (["cat ", " wc"] : List String).length ∧
    (executePipedCommands ["cat ", " wc"]).parentOpenAfter = [] ∧
    (∀ c ∈ (executePipedCommands ["cat ", " wc"]).children,
      c.openPipeAtExec =
        if c.idx < (["cat ", " wc"] : List String).length - 1 then [] else [2 * c.idx + 4]) ∧
    (executePipedCommands ["cat ", " wc"]).waits = (["cat ", " wc"] : List String).length :=
  piped_pipe_accounting ["cat ", " wc"] (by decide)

/-- C5 amended: a stage whose program cannot be started terminates with
exit status `EXIT_FAILURE`, that is 1 — a non-zero status, but one that a
successfully launched program can itself report, so a launch failure is
not distinguishable by exit status from a program that runs and exits
with status 1. -/
theorem exec_failure_exits_one (fs : FileSys) (execOk : String → Bool)
    (prog : String) (rest : List String) (h : execOk prog = false) :
    (executeCommandChild fs execOk (prog :: rest) none none).result =
      ChildResult.exited EXIT_FAILURE ∧
    EXIT_FAILURE = 1 ∧ EXIT_FAILURE ≠ 0 ∧ possibleProgramExitStatus EXIT_FAILURE := by
  refine ⟨?_, rfl, by decide, by norm_num [possibleProgramExitStatus, EXIT_FAILURE]⟩
  simp [executeCommandChild, executeCommandChildOutput, executeCommandChildExec, h]

/-- Witness for C5 (amended) at a program name no OS would exec. -/
theorem exec_failure_exits_one_witness :
    (executeCommandChild [] (fun _ => false) ("badcmd" :: []) none none).result =
      ChildResult.exited EXIT_FAILURE ∧
    EXIT_FAILURE = 1 ∧ EXIT_FAILURE ≠ 0 ∧ possibleProgramExitStatus EXIT_FAILURE :=
  exec_failure_exits_one [] (fun _ => false) "badcmd" [] rfl

/-- Looking up a path right after `setFile` returns the stored file. -/
theorem lookupFile_setFile (fs : FileSys) (p : String) (f : File) :
    lookupFile (setFile fs p f) p = some f := by
  induction fs with
  | nil => simp [setFile, lookupFile, List.find?]
  | cons e rest ih =>
    by_cases he : e.1 = p
    · simp [setFile, lookupFile, List.find?, he]
    · simp only [setFile, he, if_false]
      simp only [lookupFile, List.find?] at ih ⊢
      simp [he, ih]

/-- C9: the redirection resolver's contract.  Input redirection opens the
path read-only without O_CREAT; the open fails when the path is absent or
unreadable, in which case the stage exits with `EXIT_FAILURE` and the
file system is untouched, and succeeds (without modifying the file
system) when the path exists and is readable.  Output redirection opens
for writing with O_CREAT and O_TRUNC and permission argument 0644: an
absent path is created with mode 0644 and empty content, an existing
path keeps its mode and has its content truncated. -/
theorem redirection_open_contract (fs : FileSys) (execOk : String → Bool)
    (args : List String) (p : String) :
    ((inputOpenCall p).access = AccessMode.rdonly ∧ (inputOpenCall p).creat = false) ∧
    (lookupFile fs p = none → osOpen fs (inputOpenCall p) = none) ∧
    (∀ f : File, lookupFile fs p = some f → FileReadable f = false →
      osOpen fs (inputOpenCall p) = none) ∧
    (∀ f : File, lookupFile fs p = some f → FileReadable f = true →
      osOpen fs (inputOpenCall p) = some fs) ∧
    (osOpen fs (inputOpenCall p) = none → ∀ outFile : Option String,
      executeCommandChild fs execOk args (some p) outFile =
        ⟨StreamBinding.inherited, StreamBinding.inherited,
         ChildResult.exited EXIT_FAILURE, fs⟩) ∧
    ((outputOpenCall p).access = AccessMode.wronly ∧ (outputOpenCall p).creat = true ∧
      (outputOpenCall p).trunc = true ∧ (outputOpenCall p).mode = 0o644) ∧
    (lookupFile fs p = none → ∃ fs2 : FileSys,
      osOpen fs (outputOpenCall p) = some fs2 ∧ lookupFile fs2 p = some ⟨0o644, []⟩) ∧
    (∀ f : File, lookupFile fs p = some f → ∃ fs2 : FileSys,
      osOpen fs (outputOpenCall p) = some fs2 ∧ lookupFile fs2 p = some ⟨f.mode, []⟩) := by
  refine ⟨⟨rfl, rfl⟩, ?_, ?_, ?_, ?_, ⟨rfl, rfl, rfl, rfl⟩, ?_, ?_⟩
  · intro hnone
    simp [osOpen, inputOpenCall, hnone]
  · intro f hf hr
    simp [osOpen, inputOpenCall, hf, hr]
  · intro f hf hr
    simp [osOpen, inputOpenCall, hf, hr]
  · intro hopen outFile
    simp [executeCommandChild, hopen]
  · intro hnone
    exact ⟨setFile fs p ⟨0o644, []⟩, by simp [osOpen, outputOpenCall, hnone],
      lookupFile_setFile fs p ⟨0o644, []⟩⟩
  · intro f hf
    exact ⟨setFile fs p ⟨f.mode, []⟩, by simp [osOpen, outputOpenCall, hf],
      lookupFile_setFile fs p ⟨f.mode, []⟩⟩

/-- Witness for C9 on `sampleFs`: an absent input path fails and makes
the stage exit 1; an unreadable input fails; a readable input succeeds
without changing the file system; an absent output path is created with
mode 0644 and empty content; an existing output keeps its mode 0600 and
is truncated. -/
theorem redirection_open_contract_witness :
    osOpen sampleFs (inputOpenCall "absent") = none ∧
    executeCommandChild sampleFs (fun _ => true) ["cat"] (some "absent") none =
      ⟨StreamBinding.inherited, StreamBinding.inherited,
       ChildResult.exited EXIT_FAILURE, sampleFs⟩ ∧
    osOpen sampleFs (inputOpenCall "locked") = none ∧
    osOpen sampleFs (inputOpenCall "in.txt") = some sampleFs ∧
    (∃ fs2 : FileSys, osOpen sampleFs (outputOpenCall "new.txt") = some fs2 ∧
      lookupFile fs2 "new.txt" = some ⟨0o644, []⟩) ∧
    (∃ fs2 : FileSys, osOpen sampleFs (outputOpenCall "out.txt") = some fs2 ∧
      lookupFile fs2 "out.txt" = some ⟨0o600, []⟩) := by
  have h1 : osOpen sampleFs (inputOpenCall "absent") = none :=
    (redirection_open_contract sampleFs (fun _ => true) ["cat"] "absent").2.1 (by decide)
  refine ⟨h1, ?_, ?_, ?_, ?_, ?_⟩
  · exact (redirection_open_contract sampleFs (fun _ => true) ["cat"] "absent").2.2.2.2.1 h1 none
  · exact (redirection_open_contract sampleFs (fun _ => true) ["cat"] "locked").2.2.1
      ⟨0, []⟩ (by decide) (by decide)
  · exact (redirection_open_contract sampleFs (fun _ => true) ["cat"] "in.txt").2.2.2.1
      ⟨0o644, [7]⟩ (by decide) (by decide)
  · exact (redirection_open_contract sampleFs (fun _ => true) ["cat"] "new.txt").2.2.2.2.2.2.1
      (by decide)
  · exact (redirection_open_contract sampleFs (fun _ => true) ["cat"] "out.txt").2.2.2.2.2.2.2
      ⟨0o600, [1, 2]⟩ (by decide)

/-- Folding `add_to_history` over the accepted lines keeps exactly the
most recent `MAX_HISTORY` entries, in order. -/
theorem foldl_addToHistory (lines : List String) : ∀ h : List String,
    h.length ≤ MAX_HISTORY →
    List.foldl addToHistory h lines =
      (h ++ lines).drop ((h ++ lines).length - MAX_HISTORY) := by
  induction lines with
  | nil =>
    intro h hh
    simp [Nat.sub_eq_zero_of_le hh]
  | cons x xs ih =>
    intro h hh
    rw [List.foldl_cons]
    by_cases hlt : h.length < MAX_HISTORY
    · have hax : addToHistory h x = h ++ [x] := by
        simp [addToHistory, hlt]
      rw [hax, ih (h ++ [x])
        (by simp only [MAX_HISTORY, List.length_append, List.length_singleton] at hlt ⊢; omega)]
      simp [List.append_assoc]
    · have hlen : h.length = MAX_HISTORY := le_antisymm hh (not_lt.mp hlt)
      have hax : addToHistory h x = h.tail ++ [x] := by
        simp [addToHistory, hlt]
      rw [hax, ih (h.tail ++ [x])
        (by simp only [MAX_HISTORY, List.length_append, List.length_tail,
              List.length_singleton] at hlen ⊢
            omega)]
      cases h with
      | nil => simp [MAX_HISTORY] at hlen
      | cons a t =>
        simp only [List.tail_cons]
        have ht : t.length + 1 = MAX_HISTORY := by
          simpa using hlen
        have l1 : (t ++ [x] ++ xs).length - MAX_HISTORY = xs.length := by
          simp only [List.length_append, List.length_singleton]
          omega
        have l2 : ((a :: t) ++ x :: xs).length - MAX_HISTORY = xs.length + 1 := by
          simp only [List.length_append, List.length_cons]
          omega
        rw [l1, l2]
        have hsplit : (a :: t) ++ x :: xs = a :: (t ++ x :: xs) := by
          simp
        rw [hsplit, List.drop_succ_cons, List.append_assoc, List.singleton_append]

/-- C10: the history store invariant.  The store never exceeds
`MAX_HISTORY` (100) entries; below the bound a new line is appended at
the end; at the bound the oldest entry is discarded and the rest shift
up with the new line stored last; consequently, after any sequence of
accepted lines the store holds exactly the most recent at most 100 of
them in chronological order, and `print_history` lists them 1-indexed
in that order. -/
theorem history_bounded_recent :
    (∀ (h : List String) (x : String), h.length ≤ MAX_HISTORY →
      (addToHistory h x).length ≤ MAX_HISTORY) ∧
    (∀ (h : List String) (x : String), h.length < MAX_HISTORY →
      addToHistory h x = h ++ [x]) ∧
    (∀ (h : List String) (x : String), h.length = MAX_HISTORY →
      addToHistory h x = h.tail ++ [x]) ∧
    (∀ lines : List String,
      List.foldl addToHistory [] lines = lines.drop (lines.length - MAX_HISTORY)) ∧
    (∀ lines : List String,
      printHistory (List.foldl addToHistory [] lines) =
        (lines.drop (lines.length - MAX_HISTORY)).enum.map (fun q => (q.1 + 1, q.2))) := by
  have h4 : ∀ lines : List String,
      List.foldl addToHistory [] lines = lines.drop (lines.length - MAX_HISTORY) := by
    intro lines
    simpa using foldl_addToHistory lines [] (by simp [MAX_HISTORY])
  refine ⟨?_, ?_, ?_, h4, ?_⟩
  · intro h x hh
    by_cases hlt : h.length < MAX_HISTORY
    · simp only [addToHistory, hlt, if_pos, List.length_append, List.length_singleton]
      simp only [MAX_HISTORY] at hlt ⊢
      omega
    · simp only [addToHistory, hlt, if_neg, not_false_iff, List.length_append,
        List.length_tail, List.length_singleton]
      simp only [MAX_HISTORY] at hh ⊢
      omega
  · intro h x hlt
    simp [addToHistory, hlt]
  · intro h x he
    have hnlt : ¬h.length < MAX_HISTORY := by
      rw [he]
      exact Nat.lt_irrefl _
    simp [addToHistory, hnlt]
  · intro lines
    rw [printHistory, h4 lines]

/-- Witness for C10: the bound, the append case, the shift case at a
full store of 100 entries, and the most-recent characterization on a
short accepted sequence. -/
theorem history_bounded_recent_witness :
    (addToHistory ["a"] "b").length ≤ MAX_HISTORY ∧
    addToHistory ["a"] "b" = ["a"] ++ ["b"] ∧
    addToHistory (List.replicate 100 "a") "b" = (List.replicate 100 "a").tail ++ ["b"] ∧
    List.foldl addToHistory [] ["a", "b"] =
      (["a", "b"] : List String).drop ((["a", "b"] : List String).length - MAX_HISTORY) ∧
    printHistory (List.foldl addToHistory [] ["a", "b"]) =
      ((["a", "b"] : List String).drop ((["a", "b"] : List String).length - MAX_HISTORY)).enum.map
        (fun q => (q.1 + 1, q.2)) :=
  ⟨history_bounded_recent.1 ["a"] "b" (by norm_num [MAX_HISTORY]),
   history_bounded_recent.2.1 ["a"] "b" (by norm_num [MAX_HISTORY]),
   history_bounded_recent.2.2.1 (List.replicate 100 "a") "b" (by simp [MAX_HISTORY]),
   history_bounded_recent.2.2.2.1 ["a", "b"],
   history_bounded_recent.2.2.2.2 ["a", "b"]⟩

end CustomShell
